import Mathlib

/-!
Shallow embedding of the `blockchain` repository (crates `blockchain-vm` and
`blockchain-core`) and proofs about it.

Conventions of the embedding:
* Rust `u64` values are Lean `Nat`s; wherever the Rust code performs unchecked
  `u64` arithmetic the embedding wraps with `% 2^64` (release-mode semantics).
* Rust `i64` values are Lean `Int`s kept in the interval `[-2^63, 2^63)`;
  `wrap64` is two's-complement wrapping.
* Rust `Vec<T>` used as a stack is a Lean `List` whose HEAD is the stack TOP
  (the Rust `Vec`'s last element); `HashMap` is an association list whose
  lookup takes the first matching entry and whose insert prepends.
* SHA-256 and Ed25519 are cryptographic primitives external to the repository;
  they are parameters of the embedding (see `CryptoPrim`), and every theorem
  quantifies over them or instantiates them with concrete test functions.
* `&mut self` methods become functions returning the new value; a fallible
  `&mut self` method returns a pair of the `Result` and the (possibly
  unchanged) receiver.
-/

namespace Blockchain

/-! ## blockchain-vm: errors.rs -/

/-- `VmError` from `blockchain-vm/src/errors.rs`. -/
inductive VmError where
  | stackOverflow : Nat → VmError
  | stackUnderflow : Nat → Nat → VmError
  | gasLimitExceeded : Nat → VmError
  | invalidOpcode : Nat → VmError
  | divisionByZero : VmError
  | invalidJump : Nat → VmError
  | pcOutOfBounds : Nat → Nat → VmError
  | compileError : String → VmError
  | contractError : String → VmError
deriving DecidableEq, Repr

/-! ## blockchain-vm: opcodes.rs -/

/-- `OpCode` from `blockchain-vm/src/opcodes.rs`. -/
inductive OpCode where
  | push | pop | dup | swap
  | add | sub | mul | div | mod
  | eq | lt | gt | not
  | jump | jumpIf | halt
  | store | load
  | log
deriving DecidableEq, Repr

/-- `OpCode::from_byte`. -/
def OpCode.fromByte (byte : Nat) : Option OpCode :=
  match byte with
  | 0x01 => some .push
  | 0x02 => some .pop
  | 0x03 => some .dup
  | 0x04 => some .swap
  | 0x10 => some .add
  | 0x11 => some .sub
  | 0x12 => some .mul
  | 0x13 => some .div
  | 0x14 => some .mod
  | 0x20 => some .eq
  | 0x21 => some .lt
  | 0x22 => some .gt
  | 0x23 => some .not
  | 0x30 => some .jump
  | 0x31 => some .jumpIf
  | 0x3F => some .halt
  | 0x40 => some .store
  | 0x41 => some .load
  | 0x50 => some .log
  | _ => none

/-! ## blockchain-vm: vm.rs -/

/-- `MAX_STACK_SIZE` from `vm.rs`. -/
def maxStackSize : Nat := 1024

/-- `MAX_STEPS` from `vm.rs`. -/
def maxSteps : Nat := 100000

/-- Two's-complement wrapping into the `i64` range `[-2^63, 2^63)`;
models Rust `i64::wrapping_add` / `wrapping_sub` / `wrapping_mul` results. -/
def wrap64 (x : Int) : Int := (x + 2 ^ 63) % 2 ^ 64 - 2 ^ 63

/-- Rust `i64 as u64` / `i64 as usize` reinterpretation (two's complement). -/
def i64AsNat (x : Int) : Nat := (x % 2 ^ 64).toNat

/-- `i64::from_le_bytes` on an 8-byte little-endian list. -/
def i64FromLeBytes (bs : List Nat) : Int :=
  let n : Nat := bs.foldr (fun b acc => b + 256 * acc) 0
  if n < 2 ^ 63 then (n : Int) else (n : Int) - 2 ^ 64

/-- `i64::to_le_bytes`: the 8 little-endian bytes of an `i64` value
(used by the test helper `push_val` to assemble `PUSH` immediates). -/
def i64ToLeBytes (v : Int) : List Nat :=
  let n : Nat := i64AsNat v
  [n % 256, n / 256 % 256, n / 256 ^ 2 % 256, n / 256 ^ 3 % 256,
   n / 256 ^ 4 % 256, n / 256 ^ 5 % 256, n / 256 ^ 6 % 256, n / 256 ^ 7 % 256]

/-- Association-list model of `HashMap<u64, i64>`: first matching entry wins. -/
def storageGet (st : List (Nat × Int)) (k : Nat) : Int :=
  match st.find? (fun e => e.1 == k) with
  | some e => e.2
  | none => 0

/-- `HashMap::insert` (new binding shadows any old one). -/
def storageInsert (st : List (Nat × Int)) (k : Nat) (v : Int) : List (Nat × Int) :=
  (k, v) :: st

/-- The mutable fields of `VM` from `vm.rs`. -/
structure VMState where
  stack : List Int
  pc : Nat
  storage : List (Nat × Int)
  logs : List Int
  steps : Nat
deriving DecidableEq, Repr

/-- `ExecutionResult` from `vm.rs` (stack listed top-first, see header). -/
structure ExecutionResult where
  stack : List Int
  storage : List (Nat × Int)
  logs : List Int
  steps_used : Nat
deriving DecidableEq, Repr

/-- Outcome of running VM code that may return a value, return a `VmError`,
or panic.  Rust `panic!` unwinds and produces no value, so it is neither an
`Err` nor an `Ok`; the one panic the VM can hit on attacker-supplied
bytecode is `i64` division overflow (`i64::MIN / -1`, `i64::MIN % -1`),
which panics even in release builds. -/
inductive VmOutcome (α : Type) where
  | ok : α → VmOutcome α
  | error : VmError → VmOutcome α
  | panic : VmOutcome α
deriving DecidableEq, Repr

/-- The `?` propagation of `VmResult`, extended to propagate a panic
(unwinding skips the rest of the caller). -/
def VmOutcome.bind (x : VmOutcome α) (f : α → VmOutcome β) : VmOutcome β :=
  match x with
  | .ok a => f a
  | .error e => .error e
  | .panic => .panic

instance : Monad VmOutcome where
  pure := VmOutcome.ok
  bind := VmOutcome.bind

/-- `VM::push`. -/
def VM.push (s : VMState) (v : Int) : VmOutcome VMState :=
  if maxStackSize ≤ s.stack.length then .error (.stackOverflow maxStackSize)
  else .ok { s with stack := v :: s.stack }

/-- `VM::pop`. -/
def VM.pop (s : VMState) : VmOutcome (Int × VMState) :=
  match s.stack with
  | [] => .error (.stackUnderflow 1 0)
  | v :: rest => .ok (v, { s with stack := rest })

/-- `VM::peek`. -/
def VM.peek (s : VMState) : VmOutcome Int :=
  match s.stack with
  | [] => .error (.stackUnderflow 1 0)
  | v :: _ => .ok v

/-- `VM::read_i64` reading 8 bytes at `pos` (the source's `self.pc` after the
`pc += 1` that skips the `PUSH` byte). -/
def readI64 (bc : List Nat) (pos : Nat) : VmOutcome Int :=
  if bc.length < pos + 8 then .error (.pcOutOfBounds pos bc.length)
  else .ok (i64FromLeBytes ((bc.drop pos).take 8))

/-- Outcome of one iteration of the `while` loop in `VM::execute`:
`halt` covers the `break` of `OpCode::Halt`, `cont` carries the state (with
the program counter already advanced) into the next iteration. -/
inductive StepOut where
  | halt : VMState → StepOut
  | cont : VMState → StepOut

/-- One fetch-decode-execute iteration of the loop body of `VM::execute`
(everything after the gas check and the `steps` increment). -/
def step (bc : List Nat) (s : VMState) : VmOutcome StepOut :=
  let opcodeByte := bc.getD s.pc 0
  match OpCode.fromByte opcodeByte with
  | none => .error (.invalidOpcode opcodeByte)
  | some .push => do
      let v ← readI64 bc (s.pc + 1)
      let s1 ← VM.push s v
      .ok (.cont { s1 with pc := s.pc + 9 })
  | some .pop => do
      let (_, s1) ← VM.pop s
      .ok (.cont { s1 with pc := s1.pc + 1 })
  | some .dup => do
      let v ← VM.peek s
      let s1 ← VM.push s v
      .ok (.cont { s1 with pc := s1.pc + 1 })
  | some .swap => do
      let (a, s1) ← VM.pop s
      let (b, s2) ← VM.pop s1
      let s3 ← VM.push s2 a
      let s4 ← VM.push s3 b
      .ok (.cont { s4 with pc := s4.pc + 1 })
  | some .add => do
      let (b, s1) ← VM.pop s
      let (a, s2) ← VM.pop s1
      let s3 ← VM.push s2 (wrap64 (a + b))
      .ok (.cont { s3 with pc := s3.pc + 1 })
  | some .sub => do
      let (b, s1) ← VM.pop s
      let (a, s2) ← VM.pop s1
      let s3 ← VM.push s2 (wrap64 (a - b))
      .ok (.cont { s3 with pc := s3.pc + 1 })
  | some .mul => do
      let (b, s1) ← VM.pop s
      let (a, s2) ← VM.pop s1
      let s3 ← VM.push s2 (wrap64 (a * b))
      .ok (.cont { s3 with pc := s3.pc + 1 })
  -- In the Div/Mod branches the source checks only `b == 0`; the subsequent
  -- Rust `a / b` (resp. `a % b`) itself panics on i64 overflow, i.e. exactly
  -- when `a = i64::MIN` and `b = -1`, even in release builds.
  | some .div => do
      let (b, s1) ← VM.pop s
      let (a, s2) ← VM.pop s1
      if b = 0 then .error .divisionByZero
      else if a = -2 ^ 63 ∧ b = -1 then .panic
      else do
        let s3 ← VM.push s2 (wrap64 (Int.tdiv a b))
        .ok (.cont { s3 with pc := s3.pc + 1 })
  | some .mod => do
      let (b, s1) ← VM.pop s
      let (a, s2) ← VM.pop s1
      if b = 0 then .error .divisionByZero
      else if a = -2 ^ 63 ∧ b = -1 then .panic
      else do
        let s3 ← VM.push s2 (wrap64 (Int.tmod a b))
        .ok (.cont { s3 with pc := s3.pc + 1 })
  | some .eq => do
      let (b, s1) ← VM.pop s
      let (a, s2) ← VM.pop s1
      let s3 ← VM.push s2 (if a = b then 1 else 0)
      .ok (.cont { s3 with pc := s3.pc + 1 })
  | some .lt => do
      let (b, s1) ← VM.pop s
      let (a, s2) ← VM.pop s1
      let s3 ← VM.push s2 (if a < b then 1 else 0)
      .ok (.cont { s3 with pc := s3.pc + 1 })
  | some .gt => do
      let (b, s1) ← VM.pop s
      let (a, s2) ← VM.pop s1
      let s3 ← VM.push s2 (if b < a then 1 else 0)
      .ok (.cont { s3 with pc := s3.pc + 1 })
  | some .not => do
      let (a, s1) ← VM.pop s
      let s2 ← VM.push s1 (if a = 0 then 1 else 0)
      .ok (.cont { s2 with pc := s2.pc + 1 })
  | some .jump => do
      let (t, s1) ← VM.pop s
      let target := i64AsNat t
      if bc.length ≤ target then .error (.invalidJump target)
      else .ok (.cont { s1 with pc := target })
  | some .jumpIf => do
      let (t, s1) ← VM.pop s
      let (condition, s2) ← VM.pop s1
      let target := i64AsNat t
      if condition ≠ 0 then
        if bc.length ≤ target then .error (.invalidJump target)
        else .ok (.cont { s2 with pc := target })
      else .ok (.cont { s2 with pc := s2.pc + 1 })
  | some .halt => .ok (.halt s)
  | some .store => do
      let (v, s1) ← VM.pop s
      let (k, s2) ← VM.pop s1
      .ok (.cont { s2 with storage := storageInsert s2.storage (i64AsNat k) v,
                           pc := s2.pc + 1 })
  | some .load => do
      let (k, s1) ← VM.pop s
      let s2 ← VM.push s1 (storageGet s1.storage (i64AsNat k))
      .ok (.cont { s2 with pc := s2.pc + 1 })
  | some .log => do
      let (v, s1) ← VM.pop s
      .ok (.cont { s1 with logs := s1.logs ++ [v], pc := s1.pc + 1 })

/-- The `while self.pc < bytecode.len()` loop of `VM::execute`.  The extra
`fuel` argument only bounds the recursion; `execute` passes
`maxSteps + 1`, and since `steps` grows by one per iteration the gas check
`maxSteps ≤ steps` always fires before fuel can run out, so the fuel-0
branch (which returns the same gas error) is unreachable from `execute`. -/
def execLoop (bc : List Nat) : Nat → VMState → VmOutcome VMState
  | 0, _ => .error (.gasLimitExceeded maxSteps)
  | fuel + 1, s =>
    if s.pc < bc.length then
      if maxSteps ≤ s.steps then .error (.gasLimitExceeded maxSteps)
      else
        match step bc { s with steps := s.steps + 1 } with
        | .error e => .error e
        | .panic => .panic
        | .ok (.halt s1) => .ok s1
        | .ok (.cont s1) => execLoop bc fuel s1
    else .ok s

/-- `VM::execute` on a fresh `VM::new().with_storage(storage)`. -/
def execute (bc : List Nat) (storage : List (Nat × Int)) :
    VmOutcome ExecutionResult :=
  match execLoop bc (maxSteps + 1)
      { stack := [], pc := 0, storage := storage, logs := [], steps := 0 } with
  | .error e => .error e
  | .panic => .panic
  | .ok s =>
      .ok { stack := s.stack, storage := s.storage, logs := s.logs,
            steps_used := s.steps }

/-- `StepOut`'s carried state. -/
def StepOut.state : StepOut → VMState
  | .halt s => s
  | .cont s => s

/-- The test helper `push_val` from the `vm.rs` tests: the byte encoding of
`PUSH v` (opcode byte followed by the 8-byte little-endian immediate). -/
def pushVal (v : Int) : List Nat := 0x01 :: i64ToLeBytes v

/-! ## blockchain-core: errors.rs -/

/-- `CoreError` from `blockchain-core/src/errors.rs`.  Error message strings
that the Rust code builds from external library errors are modelled by fixed
placeholder strings; no claim inspects them. -/
inductive CoreError where
  | invalidBlock : String → CoreError
  | invalidTransaction : String → CoreError
  | invalidChain : String → CoreError
  | insufficientBalance : String → Nat → Nat → CoreError
  | invalidSignature : String → CoreError
  | duplicateTransaction : String → CoreError
  | accountNotFound : String → CoreError
  | contractNotFound : String → CoreError
  | serialization : String → CoreError
  | miningError : String → CoreError
deriving DecidableEq, Repr

/-- The cryptographic primitives the core uses (SHA-256 via `sha2`+`hex`,
Ed25519 via `ed25519_dalek`).  They live outside the repository, so the
embedding abstracts them: every theorem is quantified over (or instantiates)
this record.
* `shaHex s` models `hex::encode(Sha256::digest(s))`.
* `shaBytes s` models `Sha256::digest(s).to_vec()`.
* `sign k m` models `SigningKey::sign`, `verifyingKeyOf k` the derived
  public-key bytes, `keyOk pk` whether `VerifyingKey::from_bytes` succeeds,
  and `verifySig pk m sig` whether `VerifyingKey::verify` succeeds. -/
structure CryptoPrim where
  shaHex : String → String
  shaBytes : String → List Nat
  sign : List Nat → List Nat → List Nat
  verifyingKeyOf : List Nat → List Nat
  keyOk : List Nat → Bool
  verifySig : List Nat → List Nat → List Nat → Bool

/-- Rust `str::starts_with` on textual hashes. -/
def strStartsWith (s p : String) : Bool := List.isPrefixOf p.data s.data

/-- `"0".repeat(n)`. -/
def zeros (n : Nat) : String := String.mk (List.replicate n '0')

/-! ## blockchain-core: transaction.rs -/

/-- `TransactionType` from `transaction.rs`. -/
inductive TransactionType where
  | transfer | contractDeploy | contractCall
deriving DecidableEq, Repr

/-- The `{:?}` debug form of `TransactionType` used by `Transaction::hash`. -/
def TransactionType.debugRepr : TransactionType → String
  | .transfer => "Transfer"
  | .contractDeploy => "ContractDeploy"
  | .contractCall => "ContractCall"

/-- `Transaction` from `transaction.rs`; `DateTime<Utc>` timestamps are
opaque to the core logic and modelled as `Nat`. -/
structure Transaction where
  id : String
  sender : String
  recipient : String
  amount : Nat
  data : List Nat
  tx_type : TransactionType
  timestamp : Nat
  signature : Option (List Nat)
  public_key : Option (List Nat)
deriving DecidableEq, Repr

/-- `Transaction::new`; the fresh UUID and the `Utc::now()` instant are
environment inputs, passed explicitly. -/
def Transaction.new (sender recipient : String) (amount : Nat) (data : List Nat)
    (tx_type : TransactionType) (id : String) (timestamp : Nat) : Transaction :=
  { id, sender, recipient, amount, data, tx_type, timestamp,
    signature := none, public_key := none }

/-- `Transaction::new_transfer`. -/
def Transaction.new_transfer (sender recipient : String) (amount : Nat)
    (id : String) (timestamp : Nat) : Transaction :=
  Transaction.new sender recipient amount [] .transfer id timestamp

/-- `Transaction::hash` (the content hash fed to the Merkle tree). -/
def Transaction.hash (C : CryptoPrim) (t : Transaction) : String :=
  C.shaHex (t.id ++ t.sender ++ t.recipient ++ toString t.amount ++
    toString t.timestamp ++ toString t.data ++ t.tx_type.debugRepr)

/-- `Transaction::signable_bytes`: SHA-256 over the concatenation of
`id`, `sender`, `recipient`, `amount`, `timestamp` only. -/
def Transaction.signable_bytes (C : CryptoPrim) (t : Transaction) : List Nat :=
  C.shaBytes (t.id ++ t.sender ++ t.recipient ++ toString t.amount ++
    toString t.timestamp)

/-- `Transaction::sign`. -/
def Transaction.sign (C : CryptoPrim) (signingKey : List Nat) (t : Transaction) :
    Transaction :=
  { t with signature := some (C.sign signingKey (t.signable_bytes C)),
           public_key := some (C.verifyingKeyOf signingKey) }

/-- `Transaction::verify`. -/
def Transaction.verify (C : CryptoPrim) (t : Transaction) :
    Except CoreError Bool :=
  if t.sender = "system" then .ok true
  else
    match t.signature with
    | none => .error (.invalidSignature "Missing signature")
    | some sigBytes =>
      match t.public_key with
      | none => .error (.invalidSignature "Missing public key")
      | some pkBytes =>
        if sigBytes.length ≠ 64 then
          .error (.invalidSignature "Invalid signature length")
        else if pkBytes.length ≠ 32 then
          .error (.invalidSignature "Invalid public key length")
        else if ¬ C.keyOk pkBytes then
          .error (.invalidSignature "invalid point")
        else if C.verifySig pkBytes (t.signable_bytes C) sigBytes then .ok true
        else .error (.invalidSignature "signature error")

/-! ## blockchain-core: merkle.rs -/

/-- `MerkleTree::hash_pair`. -/
def MerkleTree.hashPair (C : CryptoPrim) (l r : String) : String :=
  C.shaHex (l ++ r)

/-- The odd-count padding inside the `while` loop of `MerkleTree::root`
(duplicate the last hash).  Only called on non-empty lists. -/
def padEven (hs : List String) : List String :=
  if hs.length % 2 ≠ 0 then hs ++ [hs.getLastD ""] else hs

/-- The `chunks(2)` reduction of one Merkle level.  The singleton leftover
case cannot occur because the caller pads to even length first. -/
def combinePairs (C : CryptoPrim) : List String → List String
  | x :: y :: rest => MerkleTree.hashPair C x y :: combinePairs C rest
  | rest => rest

/-- The `while hashes.len() > 1` loop of `MerkleTree::root`.  Each pass at
least halves a list of length ≥ 2, so `hs.length` passes always suffice;
the fuel-0 branch is unreachable from `MerkleTree.root`. -/
def merkleLoop (C : CryptoPrim) : Nat → List String → List String
  | 0, hs => hs
  | fuel + 1, hs =>
    if hs.length ≤ 1 then hs
    else merkleLoop C fuel (combinePairs C (padEven hs))

/-- `MerkleTree::root`. -/
def MerkleTree.root (C : CryptoPrim) (transactions : List Transaction) : String :=
  if transactions.isEmpty then MerkleTree.hashPair C "" ""
  else
    let hashes := transactions.map (Transaction.hash C)
    (merkleLoop C hashes.length hashes).headD ""

/-! ## blockchain-core: block.rs -/

/-- `BlockHeader` from `block.rs`. -/
structure BlockHeader where
  index : Nat
  timestamp : Nat
  previous_hash : String
  merkle_root : String
  nonce : Nat
  difficulty : Nat
deriving DecidableEq, Repr

/-- `Block` from `block.rs`. -/
structure Block where
  header : BlockHeader
  hash : String
  transactions : List Transaction
deriving DecidableEq, Repr

/-- `Block::calculate_hash`. -/
def Block.calculate_hash (C : CryptoPrim) (header : BlockHeader) : String :=
  C.shaHex (toString header.index ++ toString header.timestamp ++
    header.previous_hash ++ header.merkle_root ++ toString header.nonce ++
    toString header.difficulty)

/-- `Block::new` (the `Utc::now()` header timestamp is an explicit input). -/
def Block.new (C : CryptoPrim) (index : Nat) (timestamp : Nat)
    (previous_hash : String) (transactions : List Transaction)
    (difficulty : Nat) : Block :=
  let merkle_root := MerkleTree.root C transactions
  let header : BlockHeader :=
    { index, timestamp, previous_hash, merkle_root, nonce := 0, difficulty }
  { header := header, hash := Block.calculate_hash C header,
    transactions := transactions }

/-- `Block::genesis`. -/
def Block.genesis (C : CryptoPrim) (timestamp : Nat) : Block :=
  let header : BlockHeader :=
    { index := 0, timestamp, previous_hash := zeros 64,
      merkle_root := MerkleTree.root C [], nonce := 0, difficulty := 1 }
  { header := header, hash := Block.calculate_hash C header,
    transactions := [] }

/-- The unbounded brute-force loop of `Block::mine`, bounded here by `fuel`
(`none` = the source loop would still be searching after `fuel` rounds).
The nonce increment is Rust release-mode wrapping `u64` addition. -/
def Block.mineLoop (C : CryptoPrim) : Nat → Block → Option Block
  | 0, _ => none
  | fuel + 1, b =>
    let h := Block.calculate_hash C b.header
    let b1 := { b with hash := h }
    if strStartsWith h (zeros b.header.difficulty) then some b1
    else Block.mineLoop C fuel
      { b1 with header := { b1.header with nonce := (b1.header.nonce + 1) % 2 ^ 64 } }

/-- `Block::is_valid`. -/
def Block.is_valid (C : CryptoPrim) (b : Block) : Bool :=
  Block.calculate_hash C b.header == b.hash &&
    strStartsWith b.hash (zeros b.header.difficulty)

/-! ## blockchain-core: state.rs -/

/-- `AccountState` from `state.rs`. -/
structure AccountState where
  balance : Nat
  nonce : Nat
deriving DecidableEq, Repr

/-- `AccountState::new`. -/
def AccountState.new (balance : Nat) : AccountState := { balance, nonce := 0 }

/-- `ContractState` from `state.rs`. -/
structure ContractState where
  bytecode : List Nat
  storage : List (Nat × Int)
  owner : String
deriving DecidableEq, Repr

/-- `WorldState` from `state.rs` (both `HashMap`s as association lists). -/
structure WorldState where
  accounts : List (String × AccountState)
  contracts : List (String × ContractState)
deriving DecidableEq, Repr

/-- `WorldState::new`. -/
def WorldState.new : WorldState := { accounts := [], contracts := [] }

/-- `WorldState::get_account`. -/
def WorldState.get_account (st : WorldState) (address : String) :
    Option AccountState :=
  (st.accounts.find? (fun e => e.1 == address)).map (fun e => e.2)

/-- `WorldState::get_balance`. -/
def WorldState.get_balance (st : WorldState) (address : String) : Nat :=
  match st.get_account address with
  | some a => a.balance
  | none => 0

/-- `WorldState::credit` on the accounts map: `get_or_create_account`
followed by the unchecked `balance += amount` (release-mode `u64` wrap). -/
def creditAccounts : List (String × AccountState) → String → Nat →
    List (String × AccountState)
  | [], address, amount => [(address, { balance := (0 + amount) % 2 ^ 64, nonce := 0 })]
  | (k, acc) :: rest, address, amount =>
    if k = address then
      (k, { acc with balance := (acc.balance + amount) % 2 ^ 64 }) :: rest
    else (k, acc) :: creditAccounts rest address amount

/-- `WorldState::credit`. -/
def WorldState.credit (st : WorldState) (address : String) (amount : Nat) :
    WorldState :=
  { st with accounts := creditAccounts st.accounts address amount }

/-- `WorldState::debit` on the accounts map: `get_or_create_account`
(inserting a zero-balance account when absent, as the source does even when
the debit then fails), the `balance >= amount` check, the checked subtraction
and the wrapping `nonce += 1`. -/
def debitAccounts : List (String × AccountState) → String → Nat →
    Bool × List (String × AccountState)
  | [], address, amount =>
    if amount = 0 then (true, [(address, { balance := 0, nonce := 1 })])
    else (false, [(address, AccountState.new 0)])
  | (k, acc) :: rest, address, amount =>
    if k = address then
      if amount ≤ acc.balance then
        (true, (k, { balance := acc.balance - amount,
                     nonce := (acc.nonce + 1) % 2 ^ 64 }) :: rest)
      else (false, (k, acc) :: rest)
    else
      let r := debitAccounts rest address amount
      (r.1, (k, acc) :: r.2)

/-- `WorldState::debit`. -/
def WorldState.debit (st : WorldState) (address : String) (amount : Nat) :
    Bool × WorldState :=
  let r := debitAccounts st.accounts address amount
  (r.1, { st with accounts := r.2 })

/-- `WorldState::transfer`. -/
def WorldState.transfer (st : WorldState) (fromAddr toAddr : String)
    (amount : Nat) : Bool × WorldState :=
  let from_balance := st.get_balance fromAddr
  if from_balance < amount then (false, st)
  else
    let st1 := (st.debit fromAddr amount).2
    let st2 := st1.credit toAddr amount
    (true, st2)

/-- `WorldState::deploy_contract`. -/
def WorldState.deploy_contract (st : WorldState) (address : String)
    (bytecode : List Nat) (owner : String) : WorldState :=
  { st with contracts := (address, { bytecode, storage := [], owner }) :: st.contracts }

/-- `WorldState::get_contract`. -/
def WorldState.get_contract (st : WorldState) (address : String) :
    Option ContractState :=
  (st.contracts.find? (fun e => e.1 == address)).map (fun e => e.2)

/-- The `get_contract_mut` + `contract.storage = result.storage` update in
`ContractExecutor::call` (a no-op when the address is absent, as in the
source's `if let Some`). -/
def updateContractStorage : List (String × ContractState) → String →
    List (Nat × Int) → List (String × ContractState)
  | [], _, _ => []
  | (k, c) :: rest, address, storage =>
    if k = address then (k, { c with storage }) :: rest
    else (k, c) :: updateContractStorage rest address storage

/-! ## blockchain-core: chain.rs -/

/-- `Blockchain` from `chain.rs`. -/
structure Blockchain where
  chain : List Block
  pending_transactions : List Transaction
  difficulty : Nat
  mining_reward : Nat
  state : WorldState
deriving DecidableEq, Repr

/-- `Blockchain::new`. -/
def Blockchain.new (C : CryptoPrim) (difficulty mining_reward : Nat)
    (genesisTimestamp : Nat) : Blockchain :=
  { chain := [Block.genesis C genesisTimestamp], pending_transactions := [],
    difficulty, mining_reward, state := WorldState.new }

/-- `Blockchain::latest_block`.  The source `.expect`s a non-empty chain
(always true: chains start at genesis); the default is never reached. -/
def Blockchain.latest_block (bc : Blockchain) : Block :=
  (bc.chain.getLast?).getD
    { header := { index := 0, timestamp := 0, previous_hash := "",
                  merkle_root := "", nonce := 0, difficulty := 0 },
      hash := "", transactions := [] }

/-- `Blockchain::height`. -/
def Blockchain.height (bc : Blockchain) : Nat := bc.chain.length

/-- `Blockchain::add_transaction`.  Returns the `CoreResult<()>` together
with the updated receiver (unchanged on error). -/
def Blockchain.add_transaction (C : CryptoPrim) (bc : Blockchain)
    (tx : Transaction) : Except CoreError Unit × Blockchain :=
  if tx.sender ≠ "system" then
    match tx.verify C with
    | .error e => (.error e, bc)
    | .ok _ =>
      if tx.tx_type = TransactionType.transfer then
        let balance := bc.state.get_balance tx.sender
        if balance < tx.amount then
          (.error (.insufficientBalance tx.sender balance tx.amount), bc)
        else
          (.ok (), { bc with
            pending_transactions := bc.pending_transactions ++ [tx] })
      else
        (.ok (), { bc with
          pending_transactions := bc.pending_transactions ++ [tx] })
  else
    (.ok (), { bc with
      pending_transactions := bc.pending_transactions ++ [tx] })

/-- The per-transaction body of the `Apply state transitions` loop in
`Blockchain::mine_pending` (chain.rs, lines 96–114), which is also, case for
case, the replay loop of `Blockchain::replace_chain` (lines 177–187):
`Transfer` from `"system"` credits the recipient, any other `Transfer`
attempts `WorldState::transfer` and ignores its boolean (a failed transfer
is skipped with a warning), and contract transactions are not applied here. -/
def applyTx (st : WorldState) (tx : Transaction) : WorldState :=
  match tx.tx_type with
  | .transfer =>
    if tx.sender = "system" then st.credit tx.recipient tx.amount
    else (st.transfer tx.sender tx.recipient tx.amount).2
  | .contractDeploy => st
  | .contractCall => st

/-- `Blockchain::mine_pending`.  The reward transaction's fresh UUID and the
two `Utc::now()` stamps are explicit inputs; `fuel` bounds the proof-of-work
search (`none` = still searching, where the source would still loop). -/
def Blockchain.mine_pending (C : CryptoPrim) (fuel : Nat) (bc : Blockchain)
    (miner_address : String) (rewardId : String) (txTime blockTime : Nat) :
    Option (Block × Blockchain) :=
  let reward_tx := Transaction.new_transfer "system" miner_address
    bc.mining_reward rewardId txTime
  let transactions := bc.pending_transactions ++ [reward_tx]
  let state := transactions.foldl applyTx bc.state
  let previous_hash := bc.latest_block.hash
  let index := bc.height
  let block := Block.new C index blockTime previous_hash transactions
    bc.difficulty
  match Block.mineLoop C fuel block with
  | none => none
  | some b =>
    some (b, { bc with chain := bc.chain ++ [b],
                       pending_transactions := [], state := state })

/-- `Blockchain::is_chain_valid` as a predicate on the chain field (the only
field the source method reads): every block at position `i ≥ 1` must be
individually valid and linked to its predecessor's stored hash. -/
def is_chain_valid (C : CryptoPrim) : List Block → Bool
  | [] => true
  | [_] => true
  | prev :: curr :: rest =>
    Block.is_valid C curr && curr.header.previous_hash == prev.hash &&
      is_chain_valid C (curr :: rest)

/-- `Blockchain::replace_chain`.  The source validates a temporary
`Blockchain` value whose `chain` is `new_chain`; since `is_chain_valid`
reads only the chain, the embedding applies it to `new_chain` directly. -/
def Blockchain.replace_chain (C : CryptoPrim) (bc : Blockchain)
    (new_chain : List Block) : Except CoreError Unit × Blockchain :=
  if new_chain.length ≤ bc.chain.length then
    (.error (.invalidChain "Incoming chain is not longer than current chain"), bc)
  else if ¬ is_chain_valid C new_chain then
    (.error (.invalidChain "Incoming chain is not valid"), bc)
  else
    let state := new_chain.foldl
      (fun st block => block.transactions.foldl applyTx st) WorldState.new
    (.ok (), { bc with chain := new_chain, state := state })

/-! ## blockchain-vm: contract.rs -/

/-- `ContractResult` from `contract.rs`.  `stack_top` is
`result.stack.last().copied()` in the source; with the embedding's top-first
stacks that is the head. -/
structure ContractResult where
  logs : List Int
  stack_top : Option Int
  steps_used : Nat
deriving DecidableEq, Repr

/-- `ContractExecutor::call`.  Returns the `VmResult<ContractResult>`
together with the updated world state (unchanged on any error); a VM panic
unwinds through the call before any storage commit, so it propagates with
the state likewise untouched. -/
def ContractExecutor.call (state : WorldState) (contract_address : String)
    (callData : List Nat) : VmOutcome ContractResult × WorldState :=
  match state.get_contract contract_address with
  | none =>
    (.error (.contractError ("Contract not found: " ++ contract_address)), state)
  | some contract =>
    match execute contract.bytecode contract.storage with
    | .error e => (.error e, state)
    | .panic => (.panic, state)
    | .ok result =>
      (.ok { stack_top := result.stack.head?, logs := result.logs,
             steps_used := result.steps_used },
       { state with contracts :=
           updateContractStorage state.contracts contract_address result.storage })

/-! ## Concrete instances and derived definitions used by theorems, witnesses and counterexamples -/

/-- A concrete `CryptoPrim` for witnesses: the constant hex digest `"0"`,
which makes difficulty-1 proof-of-work succeed immediately. -/
def cTest : CryptoPrim :=
  { shaHex := fun _ => "0", shaBytes := fun s => [s.length],
    sign := fun k m => k ++ m, verifyingKeyOf := fun k => k,
    keyOk := fun _ => true, verifySig := fun _ _ _ => true }

/-- Sum of all account balances of a world state (§8's conserved quantity). -/
def sumBalances (st : WorldState) : Nat :=
  (st.accounts.map (fun e => e.2.balance)).sum

/-- The spec's description of applying one `Transfer` during replay:
a system-sender transfer credits the recipient, any other transfer moves
sender → recipient.  `applyTx` restricted to `Transfer` transactions. -/
def applyTransferTx (st : WorldState) (tx : Transaction) : WorldState :=
  if tx.sender = "system" then st.credit tx.recipient tx.amount
  else (st.transfer tx.sender tx.recipient tx.amount).2

/-- The spec's description of the world state `replace_chain` rebuilds: the
fold of `applyTransferTx` over exactly the `Transfer` transactions of the
chain, in block order, starting from the empty state. -/
def replayState (c : List Block) : WorldState :=
  ((c.map (fun b => b.transactions.filter
      (fun t => t.tx_type == TransactionType.transfer))).flatten).foldl
    applyTransferTx WorldState.new

/-- A pair of transactions agreeing on the five signed fields and differing
in payload and type, used to witness C8. -/
def t1W : Transaction :=
  { id := "i", sender := "alice", recipient := "bob", amount := 3,
    data := [], tx_type := .transfer, timestamp := 0,
    signature := none, public_key := none }

/-- See `t1W`. -/
def t2W : Transaction := { t1W with data := [9, 9], tx_type := .contractCall }

/-- The genesis-holding blockchain `Blockchain::new(1, 50)` under `cTest`,
used by several witnesses. -/
def bcW : Blockchain := Blockchain.new cTest 1 50 0

/-- A block that is not genesis and not even individually valid (its stored
hash `"x"` differs from its recomputed hash `"0"`), used to show that
`replace_chain` never inspects block 0 of the incoming chain. -/
def badBlock0W : Block :=
  { header := { index := 5, timestamp := 0, previous_hash := "p",
                merkle_root := "m", nonce := 0, difficulty := 3 },
    hash := "x", transactions := [] }

/-- A block valid under `cTest` whose `previous_hash` links to
`badBlock0W.hash`. -/
def goodBlock1W : Block :=
  { header := { index := 1, timestamp := 0, previous_hash := "x",
                merkle_root := "m", nonce := 0, difficulty := 0 },
    hash := "0", transactions := [] }

/-- A world state holding one trivial (`HALT`-only) contract, used to
witness C6. -/
def stContractW : WorldState :=
  { accounts := [],
    contracts := [("c", { bytecode := [0x3F], storage := [], owner := "o" })] }

/-- A signed transfer from an unfunded account, used to witness C2. -/
def txInsufW : Transaction :=
  { id := "t", sender := "alice", recipient := "bob", amount := 5,
    data := [], tx_type := .transfer, timestamp := 0,
    signature := some (List.replicate 64 0),
    public_key := some (List.replicate 32 0) }

/-- The block and blockchain produced by mining on `bcW` under `cTest`
(difficulty 1 and the constant digest `"0"` make the search end at once). -/
def minedPairW : Block × Blockchain :=
  match Blockchain.mine_pending cTest 1 bcW "miner" "rid" 0 0 with
  | some p => p
  | none => (Block.genesis cTest 0, bcW)

/-- A world state sitting at the `u64` boundary. -/
def stOverflowW : WorldState :=
  { accounts := [("m", { balance := 2 ^ 64 - 1, nonce := 0 })],
    contracts := [] }

/-- A coinbase transfer of 1 to the saturated account `"m"`. -/
def sysTxW : Transaction := Transaction.new_transfer "system" "m" 1 "cid" 0

/-- The program `PUSH i64::MIN; PUSH -1; DIV`: the division-by-zero guard
does not fire, and the Rust division itself overflows and panics. -/
def divOverflowW : List Nat := pushVal (-2 ^ 63) ++ pushVal (-1) ++ [0x13]

/-! ## Theorems: VM helper characterizations -/

theorem push_eq_ok (s : VMState) (v : Int) (s' : VMState) :
    VM.push s v = .ok s' ↔
      s.stack.length < maxStackSize ∧ s'.stack = v :: s.stack ∧ s'.pc = s.pc ∧
        s'.storage = s.storage ∧ s'.logs = s.logs ∧ s'.steps = s.steps := by
  unfold VM.push
  split
  next hc =>
    constructor
    · intro h; cases h
    · intro h; exact absurd h.1 (by omega)
  next hc =>
    constructor
    · intro h
      have h' := (VmOutcome.ok.inj h)
      subst h'
      exact ⟨by omega, rfl, rfl, rfl, rfl, rfl⟩
    · intro h
      obtain ⟨_, h1, h2, h3, h4, h5⟩ := h
      cases s'
      simp_all

theorem pop_eq_ok (s : VMState) (p : Int × VMState) :
    VM.pop s = .ok p ↔
      s.stack = p.1 :: p.2.stack ∧ p.2.pc = s.pc ∧
        p.2.storage = s.storage ∧ p.2.logs = s.logs ∧ p.2.steps = s.steps := by
  unfold VM.pop
  cases hs : s.stack with
  | nil =>
    constructor
    · intro h; cases h
    · intro h; simp_all
  | cons v rest =>
    constructor
    · intro h
      have h' := (VmOutcome.ok.inj h)
      subst h'
      simp
    · intro h
      obtain ⟨h1, h2, h3, h4, h5⟩ := h
      obtain ⟨p1, p2⟩ := p
      cases p2
      simp_all

theorem peek_eq_ok (s : VMState) (v : Int) :
    VM.peek s = .ok v ↔ s.stack.head? = some v := by
  unfold VM.peek
  cases hs : s.stack <;> simp [hs]

theorem readI64_eq_ok (bc : List Nat) (pos : Nat) (v : Int) :
    readI64 bc pos = .ok v ↔
      pos + 8 ≤ bc.length ∧ v = i64FromLeBytes ((bc.drop pos).take 8) := by
  unfold readI64
  split
  next hc =>
    constructor
    · intro h; cases h
    · intro h; omega
  next hc =>
    constructor
    · intro h; exact ⟨by omega, (VmOutcome.ok.inj h).symm⟩
    · intro h; rw [h.2]

/-- A successful `step` never grows the stack past the capacity check in
`VM::push` and leaves the step counter untouched (the counter is bumped by
the loop, not by the opcode bodies). -/
theorem step_ok_inv (bc : List Nat) (s : VMState) (out : StepOut)
    (h : step bc s = .ok out) (hlen : s.stack.length ≤ maxStackSize) :
    out.state.stack.length ≤ maxStackSize ∧ out.state.steps = s.steps := by
  unfold step at h
  simp only [bind, VmOutcome.bind] at h
  repeat' split at h
  all_goals try cases h
  all_goals simp_all [push_eq_ok, pop_eq_ok, peek_eq_ok, readI64_eq_ok,
    StepOut.state]
  all_goals omega

/-- Loop invariant of `execLoop`: with enough fuel relative to the step
counter, a successful run respects both resource bounds. -/
theorem execLoop_ok_inv (bc : List Nat) :
    ∀ fuel s r, execLoop bc fuel s = .ok r →
      s.stack.length ≤ maxStackSize → s.steps + fuel = maxSteps + 1 →
      r.stack.length ≤ maxStackSize ∧ r.steps ≤ maxSteps := by
  intro fuel
  induction fuel with
  | zero => intro s r h _ _; cases h
  | succ n ih =>
    intro s r h hlen hsum
    by_cases hpc : s.pc < bc.length
    · by_cases hgas : maxSteps ≤ s.steps
      · simp [execLoop, hpc, hgas] at h
      · simp only [execLoop, if_pos hpc, if_neg hgas] at h
        cases hstep : step bc { s with steps := s.steps + 1 } with
        | error e => rw [hstep] at h; cases h
        | panic => rw [hstep] at h; cases h
        | ok out =>
          rw [hstep] at h
          have hinv := step_ok_inv bc { s with steps := s.steps + 1 } out hstep
            (by simpa using hlen)
          cases out with
          | halt s1 =>
            have hr := (VmOutcome.ok.inj h)
            subst hr
            refine ⟨hinv.1, ?_⟩
            simp [StepOut.state] at hinv ⊢
            omega
          | cont s1 =>
            exact ih s1 r h hinv.1 (by simp [StepOut.state] at hinv; omega)
    · simp only [execLoop, if_neg hpc] at h
      have hr := (VmOutcome.ok.inj h)
      subst hr
      exact ⟨hlen, by omega⟩

/-- One loop iteration of `VM::execute` that continues. -/
theorem execLoop_cont (bc : List Nat) (fuel : Nat) (s s1 : VMState)
    (hpc : s.pc < bc.length) (hgas : ¬ maxSteps ≤ s.steps)
    (h : step bc { s with steps := s.steps + 1 } = .ok (.cont s1)) :
    execLoop bc (fuel + 1) s = execLoop bc fuel s1 := by
  simp [execLoop, hpc, hgas, h]

/-- One loop iteration of `VM::execute` that hits `HALT`. -/
theorem execLoop_halts (bc : List Nat) (fuel : Nat) (s s1 : VMState)
    (hpc : s.pc < bc.length) (hgas : ¬ maxSteps ≤ s.steps)
    (h : step bc { s with steps := s.steps + 1 } = .ok (.halt s1)) :
    execLoop bc (fuel + 1) s = .ok s1 := by
  simp [execLoop, hpc, hgas, h]

/-- One loop iteration of `VM::execute` that fails. -/
theorem execLoop_fails (bc : List Nat) (fuel : Nat) (s : VMState) (e : VmError)
    (hpc : s.pc < bc.length) (hgas : ¬ maxSteps ≤ s.steps)
    (h : step bc { s with steps := s.steps + 1 } = .error e) :
    execLoop bc (fuel + 1) s = .error e := by
  simp [execLoop, hpc, hgas, h]

/-- `PUSH` immediates decode back to the pushed `i64` value. -/
theorem i64_le_bytes_roundtrip (v : Int) (h1 : -2 ^ 63 ≤ v) (h2 : v < 2 ^ 63) :
    i64FromLeBytes (i64ToLeBytes v) = v := by
  unfold i64ToLeBytes i64FromLeBytes i64AsNat
  simp only [List.foldr]
  norm_num
  omega


set_option maxHeartbeats 3200000 in
/-- C4: the VM executes the §8 sample programs as specified. -/
theorem vm_sample_programs :
    (∀ v : Int, -2 ^ 63 ≤ v → v < 2 ^ 63 →
      execute (pushVal v ++ [0x3F]) [] =
        .ok { stack := [v], storage := [], logs := [], steps_used := 2 }) ∧
    (∀ a b : Int, -2 ^ 63 ≤ a → a < 2 ^ 63 → -2 ^ 63 ≤ b → b < 2 ^ 63 →
      execute (pushVal a ++ pushVal b ++ [0x10, 0x3F]) [] =
        .ok { stack := [wrap64 (a + b)], storage := [], logs := [],
              steps_used := 4 }) ∧
    (∀ v : Int, -2 ^ 63 ≤ v → v < 2 ^ 63 →
      execute (pushVal 0 ++ pushVal v ++ [0x40] ++ pushVal 0 ++ [0x41, 0x3F]) [] =
        .ok { stack := [v], storage := [(0, v)], logs := [],
              steps_used := 6 }) ∧
    (∀ a : Int, -2 ^ 63 ≤ a → a < 2 ^ 63 →
      execute (pushVal a ++ pushVal 0 ++ [0x13]) [] =
        .error .divisionByZero) := by
  have hz : i64ToLeBytes 0 = [0, 0, 0, 0, 0, 0, 0, 0] := rfl
  refine ⟨?_, ?_, ?_, ?_⟩
  · intro v h1 h2
    obtain ⟨b0, b1, b2, b3, b4, b5, b6, b7, hbs⟩ :
        ∃ b0 b1 b2 b3 b4 b5 b6 b7,
          i64ToLeBytes v = [b0, b1, b2, b3, b4, b5, b6, b7] :=
      ⟨_, _, _, _, _, _, _, _, rfl⟩
    simp only [pushVal]
    rw [hbs]
    simp only [List.cons_append, List.nil_append]
    have s1 : step [0x01, b0, b1, b2, b3, b4, b5, b6, b7, 0x3F]
        { stack := [], pc := 0, storage := [], logs := [], steps := 0 + 1 } =
        .ok (.cont { stack := [i64FromLeBytes [b0, b1, b2, b3, b4, b5, b6, b7]],
                     pc := 9, storage := [], logs := [], steps := 1 }) := rfl
    have s2 : step [0x01, b0, b1, b2, b3, b4, b5, b6, b7, 0x3F]
        { stack := [i64FromLeBytes [b0, b1, b2, b3, b4, b5, b6, b7]],
          pc := 9, storage := [], logs := [], steps := 1 + 1 } =
        .ok (.halt { stack := [i64FromLeBytes [b0, b1, b2, b3, b4, b5, b6, b7]],
                     pc := 9, storage := [], logs := [], steps := 2 }) := rfl
    simp only [execute]
    rw [show (maxSteps + 1 : Nat) = 100000 + 1 from rfl]
    rw [execLoop_cont _ 100000 _ _ (by simp) (by simp [maxSteps]) s1]
    rw [show (100000 : Nat) = 99999 + 1 from rfl]
    rw [execLoop_halts _ 99999 _ _ (by simp) (by simp [maxSteps]) s2]
    rw [← hbs, i64_le_bytes_roundtrip v h1 h2]
  · intro a b ha1 ha2 hb1 hb2
    obtain ⟨a0, a1, a2, a3, a4, a5, a6, a7, has⟩ :
        ∃ a0 a1 a2 a3 a4 a5 a6 a7,
          i64ToLeBytes a = [a0, a1, a2, a3, a4, a5, a6, a7] :=
      ⟨_, _, _, _, _, _, _, _, rfl⟩
    obtain ⟨b0, b1, b2, b3, b4, b5, b6, b7, hbs⟩ :
        ∃ b0 b1 b2 b3 b4 b5 b6 b7,
          i64ToLeBytes b = [b0, b1, b2, b3, b4, b5, b6, b7] :=
      ⟨_, _, _, _, _, _, _, _, rfl⟩
    simp only [pushVal]
    rw [has, hbs]
    simp only [List.cons_append, List.nil_append]
    have s1 : step [0x01, a0, a1, a2, a3, a4, a5, a6, a7,
                    0x01, b0, b1, b2, b3, b4, b5, b6, b7, 0x10, 0x3F]
        { stack := [], pc := 0, storage := [], logs := [], steps := 0 + 1 } =
        .ok (.cont { stack := [i64FromLeBytes [a0, a1, a2, a3, a4, a5, a6, a7]],
                     pc := 9, storage := [], logs := [], steps := 1 }) := rfl
    have s2 : step [0x01, a0, a1, a2, a3, a4, a5, a6, a7,
                    0x01, b0, b1, b2, b3, b4, b5, b6, b7, 0x10, 0x3F]
        { stack := [i64FromLeBytes [a0, a1, a2, a3, a4, a5, a6, a7]],
          pc := 9, storage := [], logs := [], steps := 1 + 1 } =
        .ok (.cont { stack := [i64FromLeBytes [b0, b1, b2, b3, b4, b5, b6, b7],
                               i64FromLeBytes [a0, a1, a2, a3, a4, a5, a6, a7]],
                     pc := 18, storage := [], logs := [], steps := 2 }) := rfl
    have s3 : step [0x01, a0, a1, a2, a3, a4, a5, a6, a7,
                    0x01, b0, b1, b2, b3, b4, b5, b6, b7, 0x10, 0x3F]
        { stack := [i64FromLeBytes [b0, b1, b2, b3, b4, b5, b6, b7],
                    i64FromLeBytes [a0, a1, a2, a3, a4, a5, a6, a7]],
          pc := 18, storage := [], logs := [], steps := 2 + 1 } =
        .ok (.cont { stack := [wrap64 (i64FromLeBytes [a0, a1, a2, a3, a4, a5, a6, a7] +
                                       i64FromLeBytes [b0, b1, b2, b3, b4, b5, b6, b7])],
                     pc := 19, storage := [], logs := [], steps := 3 }) := rfl
    have s4 : step [0x01, a0, a1, a2, a3, a4, a5, a6, a7,
                    0x01, b0, b1, b2, b3, b4, b5, b6, b7, 0x10, 0x3F]
        { stack := [wrap64 (i64FromLeBytes [a0, a1, a2, a3, a4, a5, a6, a7] +
                            i64FromLeBytes [b0, b1, b2, b3, b4, b5, b6, b7])],
          pc := 19, storage := [], logs := [], steps := 3 + 1 } =
        .ok (.halt { stack := [wrap64 (i64FromLeBytes [a0, a1, a2, a3, a4, a5, a6, a7] +
                                       i64FromLeBytes [b0, b1, b2, b3, b4, b5, b6, b7])],
                     pc := 19, storage := [], logs := [], steps := 4 }) := rfl
    simp only [execute]
    rw [show (maxSteps + 1 : Nat) = 100000 + 1 from rfl]
    rw [execLoop_cont _ 100000 _ _ (by simp) (by simp [maxSteps]) s1]
    rw [show (100000 : Nat) = 99999 + 1 from rfl]
    rw [execLoop_cont _ 99999 _ _ (by simp) (by simp [maxSteps]) s2]
    rw [show (99999 : Nat) = 99998 + 1 from rfl]
    rw [execLoop_cont _ 99998 _ _ (by simp) (by simp [maxSteps]) s3]
    rw [show (99998 : Nat) = 99997 + 1 from rfl]
    rw [execLoop_halts _ 99997 _ _ (by simp) (by simp [maxSteps]) s4]
    rw [← has, ← hbs, i64_le_bytes_roundtrip a ha1 ha2,
      i64_le_bytes_roundtrip b hb1 hb2]
  · intro v h1 h2
    obtain ⟨b0, b1, b2, b3, b4, b5, b6, b7, hbs⟩ :
        ∃ b0 b1 b2 b3 b4 b5 b6 b7,
          i64ToLeBytes v = [b0, b1, b2, b3, b4, b5, b6, b7] :=
      ⟨_, _, _, _, _, _, _, _, rfl⟩
    simp only [pushVal]
    rw [hz, hbs]
    simp only [List.cons_append, List.nil_append]
    have s1 : step [0x01, 0, 0, 0, 0, 0, 0, 0, 0,
                    0x01, b0, b1, b2, b3, b4, b5, b6, b7, 0x40,
                    0x01, 0, 0, 0, 0, 0, 0, 0, 0, 0x41, 0x3F]
        { stack := [], pc := 0, storage := [], logs := [], steps := 0 + 1 } =
        .ok (.cont { stack := [0], pc := 9, storage := [], logs := [],
                     steps := 1 }) := rfl
    have s2 : step [0x01, 0, 0, 0, 0, 0, 0, 0, 0,
                    0x01, b0, b1, b2, b3, b4, b5, b6, b7, 0x40,
                    0x01, 0, 0, 0, 0, 0, 0, 0, 0, 0x41, 0x3F]
        { stack := [0], pc := 9, storage := [], logs := [], steps := 1 + 1 } =
        .ok (.cont { stack := [i64FromLeBytes [b0, b1, b2, b3, b4, b5, b6, b7], 0],
                     pc := 18, storage := [], logs := [], steps := 2 }) := rfl
    have s3 : step [0x01, 0, 0, 0, 0, 0, 0, 0, 0,
                    0x01, b0, b1, b2, b3, b4, b5, b6, b7, 0x40,
                    0x01, 0, 0, 0, 0, 0, 0, 0, 0, 0x41, 0x3F]
        { stack := [i64FromLeBytes [b0, b1, b2, b3, b4, b5, b6, b7], 0],
          pc := 18, storage := [], logs := [], steps := 2 + 1 } =
        .ok (.cont { stack := [],
                     pc := 19,
                     storage := [(0, i64FromLeBytes [b0, b1, b2, b3, b4, b5, b6, b7])],
                     logs := [], steps := 3 }) := rfl
    have s4 : step [0x01, 0, 0, 0, 0, 0, 0, 0, 0,
                    0x01, b0, b1, b2, b3, b4, b5, b6, b7, 0x40,
                    0x01, 0, 0, 0, 0, 0, 0, 0, 0, 0x41, 0x3F]
        { stack := [], pc := 19,
          storage := [(0, i64FromLeBytes [b0, b1, b2, b3, b4, b5, b6, b7])],
          logs := [], steps := 3 + 1 } =
        .ok (.cont { stack := [0], pc := 28,
                     storage := [(0, i64FromLeBytes [b0, b1, b2, b3, b4, b5, b6, b7])],
                     logs := [], steps := 4 }) := rfl
    have s5 : step [0x01, 0, 0, 0, 0, 0, 0, 0, 0,
                    0x01, b0, b1, b2, b3, b4, b5, b6, b7, 0x40,
                    0x01, 0, 0, 0, 0, 0, 0, 0, 0, 0x41, 0x3F]
        { stack := [0], pc := 28,
          storage := [(0, i64FromLeBytes [b0, b1, b2, b3, b4, b5, b6, b7])],
          logs := [], steps := 4 + 1 } =
        .ok (.cont { stack := [i64FromLeBytes [b0, b1, b2, b3, b4, b5, b6, b7]],
                     pc := 29,
                     storage := [(0, i64FromLeBytes [b0, b1, b2, b3, b4, b5, b6, b7])],
                     logs := [], steps := 5 }) := rfl
    have s6 : step [0x01, 0, 0, 0, 0, 0, 0, 0, 0,
                    0x01, b0, b1, b2, b3, b4, b5, b6, b7, 0x40,
                    0x01, 0, 0, 0, 0, 0, 0, 0, 0, 0x41, 0x3F]
        { stack := [i64FromLeBytes [b0, b1, b2, b3, b4, b5, b6, b7]],
          pc := 29,
          storage := [(0, i64FromLeBytes [b0, b1, b2, b3, b4, b5, b6, b7])],
          logs := [], steps := 5 + 1 } =
        .ok (.halt { stack := [i64FromLeBytes [b0, b1, b2, b3, b4, b5, b6, b7]],
                     pc := 29,
                     storage := [(0, i64FromLeBytes [b0, b1, b2, b3, b4, b5, b6, b7])],
                     logs := [], steps := 6 }) := rfl
    simp only [execute]
    rw [show (maxSteps + 1 : Nat) = 100000 + 1 from rfl]
    rw [execLoop_cont _ 100000 _ _ (by simp) (by simp [maxSteps]) s1]
    rw [show (100000 : Nat) = 99999 + 1 from rfl]
    rw [execLoop_cont _ 99999 _ _ (by simp) (by simp [maxSteps]) s2]
    rw [show (99999 : Nat) = 99998 + 1 from rfl]
    rw [execLoop_cont _ 99998 _ _ (by simp) (by simp [maxSteps]) s3]
    rw [show (99998 : Nat) = 99997 + 1 from rfl]
    rw [execLoop_cont _ 99997 _ _ (by simp) (by simp [maxSteps]) s4]
    rw [show (99997 : Nat) = 99996 + 1 from rfl]
    rw [execLoop_cont _ 99996 _ _ (by simp) (by simp [maxSteps]) s5]
    rw [show (99996 : Nat) = 99995 + 1 from rfl]
    rw [execLoop_halts _ 99995 _ _ (by simp) (by simp [maxSteps]) s6]
    rw [← hbs, i64_le_bytes_roundtrip v h1 h2]
  · intro a h1 h2
    obtain ⟨a0, a1, a2, a3, a4, a5, a6, a7, has⟩ :
        ∃ a0 a1 a2 a3 a4 a5 a6 a7,
          i64ToLeBytes a = [a0, a1, a2, a3, a4, a5, a6, a7] :=
      ⟨_, _, _, _, _, _, _, _, rfl⟩
    simp only [pushVal]
    rw [hz, has]
    simp only [List.cons_append, List.nil_append]
    have s1 : step [0x01, a0, a1, a2, a3, a4, a5, a6, a7,
                    0x01, 0, 0, 0, 0, 0, 0, 0, 0, 0x13]
        { stack := [], pc := 0, storage := [], logs := [], steps := 0 + 1 } =
        .ok (.cont { stack := [i64FromLeBytes [a0, a1, a2, a3, a4, a5, a6, a7]],
                     pc := 9, storage := [], logs := [], steps := 1 }) := rfl
    have s2 : step [0x01, a0, a1, a2, a3, a4, a5, a6, a7,
                    0x01, 0, 0, 0, 0, 0, 0, 0, 0, 0x13]
        { stack := [i64FromLeBytes [a0, a1, a2, a3, a4, a5, a6, a7]],
          pc := 9, storage := [], logs := [], steps := 1 + 1 } =
        .ok (.cont { stack := [0, i64FromLeBytes [a0, a1, a2, a3, a4, a5, a6, a7]],
                     pc := 18, storage := [], logs := [], steps := 2 }) := rfl
    have s3 : step [0x01, a0, a1, a2, a3, a4, a5, a6, a7,
                    0x01, 0, 0, 0, 0, 0, 0, 0, 0, 0x13]
        { stack := [0, i64FromLeBytes [a0, a1, a2, a3, a4, a5, a6, a7]],
          pc := 18, storage := [], logs := [], steps := 2 + 1 } =
        .error .divisionByZero := rfl
    simp only [execute]
    rw [show (maxSteps + 1 : Nat) = 100000 + 1 from rfl]
    rw [execLoop_cont _ 100000 _ _ (by simp) (by simp [maxSteps]) s1]
    rw [show (100000 : Nat) = 99999 + 1 from rfl]
    rw [execLoop_cont _ 99999 _ _ (by simp) (by simp [maxSteps]) s2]
    rw [show (99999 : Nat) = 99998 + 1 from rfl]
    rw [execLoop_fails _ 99998 _ _ (by simp) (by simp [maxSteps]) s3]



/-- Witness for C4 at concrete inputs. -/
theorem vm_sample_programs_witness :
    execute (pushVal 7 ++ [0x3F]) [] =
      .ok { stack := [7], storage := [], logs := [], steps_used := 2 } ∧
    execute (pushVal 10 ++ pushVal 20 ++ [0x10, 0x3F]) [] =
      .ok { stack := [wrap64 (10 + 20)], storage := [], logs := [],
            steps_used := 4 } ∧
    execute (pushVal 0 ++ pushVal 42 ++ [0x40] ++ pushVal 0 ++ [0x41, 0x3F]) [] =
      .ok { stack := [42], storage := [(0, 42)], logs := [], steps_used := 6 } ∧
    execute (pushVal 9 ++ pushVal 0 ++ [0x13]) [] = .error .divisionByZero :=
  ⟨vm_sample_programs.1 7 (by norm_num) (by norm_num),
   vm_sample_programs.2.1 10 20 (by norm_num) (by norm_num) (by norm_num)
     (by norm_num),
   vm_sample_programs.2.2.1 42 (by norm_num) (by norm_num),
   vm_sample_programs.2.2.2 9 (by norm_num) (by norm_num)⟩

/-- Counterexample to C5 as stated: on `PUSH i64::MIN; PUSH -1; DIV` the
division-by-zero guard does not fire and the Rust `i64` division overflows
and panics (even in release builds), so `VM::execute` terminates with
neither a `VmError` nor an `ExecutionResult`. -/
theorem vm_resource_bounds_counterexample :
    execute divOverflowW [] = .panic ∧
    ¬ ((∃ e, execute divOverflowW [] = .error e) ∨
       ∃ r, execute divOverflowW [] = .ok r) := by
  have h : execute divOverflowW [] = .panic := rfl
  exact ⟨h, by simp [h]⟩

/-- C5 (amended): `VM::execute` terminates with an error, a result, or — via
Rust's `i64` division-overflow panic (`i64::MIN / -1`, `i64::MIN % -1`, see
the counterexample) — a panic; successful results use at most 100,000 steps
and at most 1024 stack slots; an iteration entered with the counter at
100,000 fails `GasLimitExceeded`, and a push with the stack at 1024 fails
`StackOverflow`. -/
theorem vm_resource_bounds_amended :
    (∀ bc storage, (∃ e, execute bc storage = .error e) ∨
      (∃ r, execute bc storage = .ok r ∧ r.steps_used ≤ maxSteps ∧
        r.stack.length ≤ maxStackSize) ∨
      execute bc storage = .panic) ∧
    (∀ (bc : List Nat) (fuel : Nat) (s : VMState), s.pc < bc.length →
      maxSteps ≤ s.steps →
      execLoop bc (fuel + 1) s = .error (.gasLimitExceeded maxSteps)) ∧
    (∀ (s : VMState) (v : Int), maxStackSize ≤ s.stack.length →
      VM.push s v = .error (.stackOverflow maxStackSize)) := by
  refine ⟨?_, ?_, ?_⟩
  · intro bc storage
    cases hx : execLoop bc (maxSteps + 1)
        { stack := [], pc := 0, storage := storage, logs := [], steps := 0 } with
    | error e =>
      left
      exact ⟨e, by simp [execute, hx]⟩
    | panic =>
      right
      right
      simp [execute, hx]
    | ok s =>
      right
      left
      have hinv := execLoop_ok_inv bc (maxSteps + 1)
        { stack := [], pc := 0, storage := storage, logs := [], steps := 0 }
        s hx (by simp) (by simp)
      exact ⟨{ stack := s.stack, storage := s.storage, logs := s.logs,
               steps_used := s.steps },
             by simp [execute, hx], hinv.2, hinv.1⟩
  · intro bc fuel s hpc hgas
    simp [execLoop, hpc, hgas]
  · intro s v h
    simp [VM.push, h]

/-- Witness for the amended C5 at concrete inputs. -/
theorem vm_resource_bounds_amended_witness :
    execLoop [0x02] 1
      { stack := [], pc := 0, storage := [], logs := [], steps := 100000 } =
      .error (.gasLimitExceeded maxSteps) ∧
    VM.push { stack := List.replicate 1024 0, pc := 0, storage := [],
              logs := [], steps := 0 } 5 =
      .error (.stackOverflow maxStackSize) :=
  ⟨vm_resource_bounds_amended.2.1 [0x02] 0
     { stack := [], pc := 0, storage := [], logs := [], steps := 100000 }
     (by simp) (by simp [maxSteps]),
   vm_resource_bounds_amended.2.2
     { stack := List.replicate 1024 0, pc := 0, storage := [],
       logs := [], steps := 0 } 5 (by rw [List.length_replicate]; decide)⟩



/-! ## Theorems: blockchain-core claims -/

/-- `Transaction::verify` reads only the sender, the signature fields and
the signable digest. -/
theorem verify_congr (C : CryptoPrim) (t t' : Transaction)
    (h1 : t.sender = t'.sender) (h2 : t.signature = t'.signature)
    (h3 : t.public_key = t'.public_key)
    (h4 : t.signable_bytes C = t'.signable_bytes C) :
    t.verify C = t'.verify C := by
  unfold Transaction.verify
  rw [h1, h2, h3, h4]

/-- C8: the signable digest is a function of only
`(id, sender, recipient, amount, timestamp)`: transactions agreeing on those
five fields have identical `signable_bytes`, signing them with one key gives
identical signature and public-key fields, and a signature/public-key pair
valid for one verifies for the other. -/
theorem signable_digest_spec (C : CryptoPrim) (t1 t2 : Transaction)
    (hid : t1.id = t2.id) (hs : t1.sender = t2.sender)
    (hr : t1.recipient = t2.recipient) (ha : t1.amount = t2.amount)
    (ht : t1.timestamp = t2.timestamp) :
    t1.signable_bytes C = t2.signable_bytes C ∧
    (∀ k, (t1.sign C k).signature = (t2.sign C k).signature ∧
          (t1.sign C k).public_key = (t2.sign C k).public_key) ∧
    (∀ sig pk,
      Transaction.verify C { t1 with signature := sig, public_key := pk } =
        Transaction.verify C { t2 with signature := sig, public_key := pk }) := by
  have hb : t1.signable_bytes C = t2.signable_bytes C := by
    simp [Transaction.signable_bytes, hid, hs, hr, ha, ht]
  refine ⟨hb, ?_, ?_⟩
  · intro k
    simp [Transaction.sign, hb]
  · intro sig pk
    exact verify_congr C _ _ hs rfl rfl
      (by simp [Transaction.signable_bytes, hid, hs, hr, ha, ht])

/-- Witness for C8 at concrete inputs. -/
theorem signable_digest_spec_witness :
    t1W.signable_bytes cTest = t2W.signable_bytes cTest ∧
    (t1W.sign cTest [1]).signature = (t2W.sign cTest [1]).signature :=
  ⟨(signable_digest_spec cTest t1W t2W rfl rfl rfl rfl rfl).1,
   ((signable_digest_spec cTest t1W t2W rfl rfl rfl rfl rfl).2.1 [1]).1⟩

/-- `WorldState::credit` on the credited address: the new balance is the
wrapped sum (no overflow guard exists in the source). -/
theorem get_balance_credit (st : WorldState) (a : String) (amt : Nat) :
    (st.credit a amt).get_balance a = (st.get_balance a + amt) % 2 ^ 64 := by
  obtain ⟨l, cs⟩ := st
  simp only [WorldState.credit, WorldState.get_balance, WorldState.get_account]
  induction l with
  | nil => simp [creditAccounts]
  | cons e rest ih =>
    obtain ⟨k, acc⟩ := e
    by_cases hk : k = a
    · simp [creditAccounts, hk]
    · simpa [creditAccounts, hk] using ih

/-- `WorldState::credit` on the credited address' account record:
the existing account is updated (wrapped), an absent one is created at 0
and then credited. -/
theorem get_account_credit (st : WorldState) (a : String) (amt : Nat) :
    (st.credit a amt).get_account a =
      some (match st.get_account a with
        | some acc => { acc with balance := (acc.balance + amt) % 2 ^ 64 }
        | none => { balance := (0 + amt) % 2 ^ 64, nonce := 0 }) := by
  obtain ⟨l, cs⟩ := st
  simp only [WorldState.credit, WorldState.get_account]
  induction l with
  | nil => simp [creditAccounts]
  | cons e rest ih =>
    obtain ⟨k, acc⟩ := e
    by_cases hk : k = a
    · simp [creditAccounts, hk]
    · simpa [creditAccounts, hk] using ih

/-- C10: `WorldState::credit` is total with no error branch; under the
no-overflow precondition `balance + amount ≤ u64::MAX` it adds exactly
`amount` (creating the account at 0 when absent); without the precondition
the unchecked `u64` addition wraps. -/
theorem credit_no_overflow_spec (st : WorldState) (a : String) (amt : Nat) :
    ((st.credit a amt).get_balance a = (st.get_balance a + amt) % 2 ^ 64) ∧
    (st.get_balance a + amt ≤ 2 ^ 64 - 1 →
      (st.credit a amt).get_balance a = st.get_balance a + amt) ∧
    (st.get_account a = none →
      (st.credit a amt).get_account a =
        some { balance := (0 + amt) % 2 ^ 64, nonce := 0 }) := by
  refine ⟨get_balance_credit st a amt, ?_, ?_⟩
  · intro h
    rw [get_balance_credit st a amt]
    omega
  · intro h
    rw [get_account_credit st a amt, h]

/-- Witness for C10 at a concrete input. -/
theorem credit_no_overflow_spec_witness :
    (WorldState.new.credit "a" 5).get_balance "a" = 5 :=
  ((credit_no_overflow_spec WorldState.new "a" 5).2.1 (by decide)).trans rfl

/-- C9: `is_chain_valid` checks only blocks at positions 1 and up, so
`replace_chain` accepts a strictly longer chain whose block 0 is arbitrary —
here one that is individually invalid, has a non-genesis index and a
non-genesis `previous_hash` — and installs it as the new `chain[0]`. -/
theorem replace_chain_genesis_unchecked :
    Block.is_valid cTest badBlock0W = false ∧
    badBlock0W.header.index ≠ 0 ∧
    badBlock0W.header.previous_hash ≠ zeros 64 ∧
    is_chain_valid cTest [badBlock0W, goodBlock1W] = true ∧
    (bcW.replace_chain cTest [badBlock0W, goodBlock1W]).1 = .ok () ∧
    (bcW.replace_chain cTest [badBlock0W, goodBlock1W]).2.chain.head? =
      some badBlock0W := by
  refine ⟨rfl, by decide, by decide, rfl, rfl, rfl⟩

/-- Updating a contract's storage changes exactly the stored record the
lookup returns. -/
theorem get_contract_update (l : List (String × ContractState)) (a : String)
    (stor : List (Nat × Int)) (ct : ContractState)
    (h : (l.find? (fun e => e.1 == a)).map (fun e => e.2) = some ct) :
    ((updateContractStorage l a stor).find? (fun e => e.1 == a)).map
        (fun e => e.2) = some { ct with storage := stor } := by
  induction l with
  | nil => simp at h
  | cons e rest ih =>
    obtain ⟨k, c⟩ := e
    by_cases hk : k = a
    · simp [updateContractStorage, hk] at h ⊢
      simp [h]
    · simp only [updateContractStorage, if_neg hk]
      have hpa : ¬ ((fun (e : String × ContractState) => e.1 == a) (k, c) = true) := by
        simp [hk]
      rw [@List.find?_cons_of_neg _ (fun e => e.1 == a) (k, c) rest hpa] at h
      rw [@List.find?_cons_of_neg _ (fun e => e.1 == a) (k, c)
        (updateContractStorage rest a stor) hpa]
      exact ih h

/-- C6: `ContractExecutor::call` fails with `ContractError` when the address
holds no contract (state unchanged); when the VM run on the contract's
bytecode seeded with its storage succeeds, the contract's storage is
overwritten with the VM's final storage and the result carries the top of
the final stack, the logs and the steps used; when the VM fails, the error
is propagated and the state is unchanged. -/
theorem contract_call_spec (st : WorldState) (addr : String) (cd : List Nat) :
    (st.get_contract addr = none →
      ContractExecutor.call st addr cd =
        (.error (.contractError ("Contract not found: " ++ addr)), st)) ∧
    (∀ ct, st.get_contract addr = some ct →
      (∀ e, execute ct.bytecode ct.storage = .error e →
        ContractExecutor.call st addr cd = (.error e, st)) ∧
      (∀ r, execute ct.bytecode ct.storage = .ok r →
        ContractExecutor.call st addr cd =
          (.ok { stack_top := r.stack.head?, logs := r.logs,
                 steps_used := r.steps_used },
           { st with contracts :=
               updateContractStorage st.contracts addr r.storage }) ∧
        (ContractExecutor.call st addr cd).2.get_contract addr =
          some { ct with storage := r.storage })) := by
  constructor
  · intro h
    simp [ContractExecutor.call, h]
  · intro ct hct
    constructor
    · intro e he
      simp [ContractExecutor.call, hct, he]
    · intro r hr
      constructor
      · simp [ContractExecutor.call, hct, hr]
      · simp only [ContractExecutor.call, hct, hr]
        exact get_contract_update st.contracts addr r.storage ct hct

/-- Witness for C6 at concrete inputs: a call on an absent address fails,
and a call on the `HALT` contract returns an empty result. -/
theorem contract_call_spec_witness :
    ContractExecutor.call WorldState.new "nope" [] =
      (.error (.contractError ("Contract not found: " ++ "nope")),
        WorldState.new) ∧
    ContractExecutor.call stContractW "c" [] =
      (.ok { stack_top := none, logs := [], steps_used := 1 },
       { stContractW with contracts :=
           updateContractStorage stContractW.contracts "c" [] }) :=
  ⟨(contract_call_spec WorldState.new "nope" []).1 rfl,
   (((contract_call_spec stContractW "c" []).2
      { bytecode := [0x3F], storage := [], owner := "o" } rfl).2
      { stack := [], storage := [], logs := [], steps_used := 1 } rfl).1⟩

/-- C2: `add_transaction` succeeds and appends to the mempool iff the sender
is `"system"`, or `verify()` succeeds and (for a `Transfer`) the sender's
balance covers the amount; a failed balance check yields
`InsufficientBalance`, and any failure leaves the receiver unchanged. -/
theorem add_transaction_spec (C : CryptoPrim) (bc : Blockchain)
    (tx : Transaction) :
    ((bc.add_transaction C tx).1 = .ok () ↔
      tx.sender = "system" ∨
        ((∃ b, tx.verify C = .ok b) ∧
          (tx.tx_type = TransactionType.transfer →
            tx.amount ≤ bc.state.get_balance tx.sender))) ∧
    ((bc.add_transaction C tx).1 = .ok () →
      (bc.add_transaction C tx).2 =
        { bc with pending_transactions := bc.pending_transactions ++ [tx] }) ∧
    ((bc.add_transaction C tx).1 ≠ .ok () → (bc.add_transaction C tx).2 = bc) ∧
    (tx.sender ≠ "system" → (∃ b, tx.verify C = .ok b) →
      tx.tx_type = TransactionType.transfer →
      bc.state.get_balance tx.sender < tx.amount →
      (bc.add_transaction C tx).1 =
        .error (.insufficientBalance tx.sender
          (bc.state.get_balance tx.sender) tx.amount)) := by
  by_cases hs : tx.sender = "system"
  · simp [Blockchain.add_transaction, hs]
  · cases hv : tx.verify C with
    | error e =>
      simp [Blockchain.add_transaction, hs, hv]
    | ok b =>
      by_cases htype : tx.tx_type = TransactionType.transfer
      · by_cases hbal : bc.state.get_balance tx.sender < tx.amount
        · simp [Blockchain.add_transaction, hs, hv, htype, hbal]
          try omega
        · simp [Blockchain.add_transaction, hs, hv, htype, hbal]
          try omega
      · simp [Blockchain.add_transaction, hs, hv, htype]

/-- Witness for C2 at a concrete input: the unfunded signed transfer is
rejected with `InsufficientBalance` and the blockchain is unchanged. -/
theorem add_transaction_spec_witness :
    (bcW.add_transaction cTest txInsufW).1 =
      .error (.insufficientBalance "alice" 0 5) ∧
    (bcW.add_transaction cTest txInsufW).2 = bcW := by
  have h := add_transaction_spec cTest bcW txInsufW
  have h1 : (bcW.add_transaction cTest txInsufW).1 =
      .error (.insufficientBalance "alice" 0 5) :=
    (h.2.2.2 (by decide) ⟨true, rfl⟩ rfl (by decide)).trans rfl
  refine ⟨h1, h.2.2.1 ?_⟩
  rw [h1]
  simp

/-- The state-transition fold applies exactly the `Transfer` transactions:
contract transactions are no-ops for it. -/
theorem foldl_applyTx_filter (l : List Transaction) (st : WorldState) :
    l.foldl applyTx st =
      (l.filter (fun t => t.tx_type == TransactionType.transfer)).foldl
        applyTransferTx st := by
  induction l generalizing st with
  | nil => rfl
  | cons t rest ih =>
    cases htype : t.tx_type <;>
      simp [applyTx, applyTransferTx, htype, List.filter, ih,
        show (TransactionType.transfer == TransactionType.transfer) = true from
          rfl,
        show (TransactionType.contractDeploy == TransactionType.transfer) =
          false from rfl,
        show (TransactionType.contractCall == TransactionType.transfer) =
          false from rfl]

/-- The nested replay fold of `replace_chain` equals one fold of
`applyTransferTx` over the chain's `Transfer` transactions in block order. -/
theorem replay_eq (c : List Block) (st : WorldState) :
    c.foldl (fun acc block => block.transactions.foldl applyTx acc) st =
      ((c.map (fun b => b.transactions.filter
          (fun t => t.tx_type == TransactionType.transfer))).flatten).foldl
        applyTransferTx st := by
  induction c generalizing st with
  | nil => rfl
  | cons b rest ih =>
    rw [List.foldl_cons, List.map_cons, List.flatten_cons, List.foldl_append,
      foldl_applyTx_filter, ih]

/-- C1: `replace_chain(c)` succeeds iff `c` is strictly longer than the
current chain and `is_chain_valid` holds of `c`; on success the chain is
replaced and the world state is rebuilt from empty by applying, in block
order, exactly the `Transfer` transactions of `c`; otherwise it returns
`InvalidChain` and chain and state are unchanged. -/
theorem replace_chain_spec (C : CryptoPrim) (bc : Blockchain)
    (c : List Block) :
    ((bc.replace_chain C c).1 = .ok () ↔
      bc.chain.length < c.length ∧ is_chain_valid C c = true) ∧
    ((bc.replace_chain C c).1 = .ok () →
      (bc.replace_chain C c).2 =
        { bc with chain := c, state := replayState c }) ∧
    (∀ e, (bc.replace_chain C c).1 = .error e →
      (∃ msg, e = CoreError.invalidChain msg) ∧
        (bc.replace_chain C c).2 = bc) := by
  by_cases hlen : c.length ≤ bc.chain.length
  · simp [Blockchain.replace_chain, hlen]
  · by_cases hval : is_chain_valid C c
    · simp [Blockchain.replace_chain, hlen, hval, replayState, replay_eq]
      omega
    · simp [Blockchain.replace_chain, hlen, hval]

/-- Witness for C1 at a concrete input: a strictly longer valid chain is
accepted and installed. -/
theorem replace_chain_spec_witness :
    (bcW.replace_chain cTest [badBlock0W, goodBlock1W]).1 = .ok () ∧
    (bcW.replace_chain cTest [badBlock0W, goodBlock1W]).2.chain =
      [badBlock0W, goodBlock1W] := by
  have h := replace_chain_spec cTest bcW [badBlock0W, goodBlock1W]
  have h1 : (bcW.replace_chain cTest [badBlock0W, goodBlock1W]).1 = .ok () :=
    h.1.mpr ⟨by decide, rfl⟩
  refine ⟨h1, ?_⟩
  rw [h.2.1 h1]

/-- Any block `Block::mine`'s loop returns satisfies the proof-of-work
postcondition: stored hash = recomputed hash, with the difficulty prefix. -/
theorem mineLoop_ok (C : CryptoPrim) :
    ∀ fuel b b', Block.mineLoop C fuel b = some b' →
      Block.calculate_hash C b'.header = b'.hash ∧
        strStartsWith b'.hash (zeros b'.header.difficulty) = true := by
  intro fuel
  induction fuel with
  | zero => intro b b' h; cases h
  | succ n ih =>
    intro b b' h
    simp only [Block.mineLoop] at h
    by_cases hsw : strStartsWith (Block.calculate_hash C b.header)
        (zeros b.header.difficulty)
    · rw [if_pos hsw] at h
      have hb := (Option.some.inj h)
      subst hb
      exact ⟨rfl, by simpa using hsw⟩
    · rw [if_neg hsw] at h
      exact ih _ _ h

/-- C3: every block returned by `mine_pending` has `hash = H(header)` and a
hash beginning with `difficulty` zero characters, and `is_valid` holds
exactly of blocks satisfying those two conditions. -/
theorem mining_hash_spec (C : CryptoPrim) :
    (∀ fuel (bc : Blockchain) miner rid ttime btime b bc',
      bc.mine_pending C fuel miner rid ttime btime = some (b, bc') →
      Block.calculate_hash C b.header = b.hash ∧
        strStartsWith b.hash (zeros b.header.difficulty) = true) ∧
    (∀ b : Block, Block.is_valid C b = true ↔
      (Block.calculate_hash C b.header = b.hash ∧
        strStartsWith b.hash (zeros b.header.difficulty) = true)) := by
  constructor
  · intro fuel bc miner rid ttime btime b bc' h
    simp only [Blockchain.mine_pending] at h
    split at h
    next => cases h
    next b0 hm =>
      have hb := (Option.some.inj h)
      have hb1 : b0 = b := congrArg Prod.fst hb
      subst hb1
      exact mineLoop_ok C _ _ _ hm
  · intro b
    simp [Block.is_valid, Bool.and_eq_true, beq_iff_eq]

/-- Witness for C3 at a concrete input. -/
theorem mining_hash_spec_witness :
    Block.calculate_hash cTest minedPairW.1.header = minedPairW.1.hash ∧
      strStartsWith minedPairW.1.hash (zeros minedPairW.1.header.difficulty) =
        true :=
  (mining_hash_spec cTest).1 1 bcW "miner" "rid" 0 0 minedPairW.1
    minedPairW.2 rfl

/-- Any single balance is bounded by the total supply. -/
theorem get_balance_le_sum (st : WorldState) (a : String) :
    st.get_balance a ≤ sumBalances st := by
  obtain ⟨l, cs⟩ := st
  simp only [WorldState.get_balance, WorldState.get_account, sumBalances]
  induction l with
  | nil => simp
  | cons e rest ih =>
    obtain ⟨k, acc⟩ := e
    by_cases hk : k = a
    · simp [hk]
    · simp [hk]
      omega

/-- `WorldState::credit` adds exactly `amount` to the total supply when the
credited balance does not overflow. -/
theorem sum_credit (st : WorldState) (a : String) (amt : Nat)
    (h : st.get_balance a + amt < 2 ^ 64) :
    sumBalances (st.credit a amt) = sumBalances st + amt := by
  obtain ⟨l, cs⟩ := st
  simp only [sumBalances, WorldState.credit, WorldState.get_balance,
    WorldState.get_account] at h ⊢
  induction l with
  | nil =>
    simp [creditAccounts]
    simp at h
    omega
  | cons e rest ih =>
    obtain ⟨k, acc⟩ := e
    by_cases hk : k = a
    · simp [creditAccounts, hk] at h ⊢
      omega
    · have h' := by simpa [hk] using h
      simp [creditAccounts, hk, ih h']
      omega

/-- A successful `WorldState::debit` removes exactly `amount` from the total
supply. -/
theorem sum_debit_le (st : WorldState) (a : String) (amt : Nat)
    (h : amt ≤ st.get_balance a) :
    sumBalances (st.debit a amt).2 = sumBalances st - amt := by
  obtain ⟨l, cs⟩ := st
  simp only [sumBalances, WorldState.debit, WorldState.get_balance,
    WorldState.get_account] at h ⊢
  induction l with
  | nil =>
    simp at h
    simp [debitAccounts, h]
  | cons e rest ih =>
    obtain ⟨k, acc⟩ := e
    by_cases hk : k = a
    · simp [debitAccounts, hk] at h ⊢
      simp [h]
      omega
    · have h' := by simpa [hk] using h
      have hsle := get_balance_le_sum ⟨rest, cs⟩ a
      simp only [sumBalances, WorldState.get_balance,
        WorldState.get_account] at hsle
      simp [debitAccounts, hk, ih h'] at h' ⊢
      omega

/-- A successful `WorldState::debit` lowers the debited balance by exactly
`amount`. -/
theorem get_balance_debit_self (st : WorldState) (a : String) (amt : Nat)
    (h : amt ≤ st.get_balance a) :
    (st.debit a amt).2.get_balance a = st.get_balance a - amt := by
  obtain ⟨l, cs⟩ := st
  simp only [WorldState.debit, WorldState.get_balance,
    WorldState.get_account] at h ⊢
  induction l with
  | nil =>
    simp at h
    simp [debitAccounts, h]
  | cons e rest ih =>
    obtain ⟨k, acc⟩ := e
    by_cases hk : k = a
    · simp [debitAccounts, hk] at h ⊢
      simp [h]
    · have h' := by simpa [hk] using h
      simp [debitAccounts, hk, ih h']

/-- `WorldState::debit` does not touch other addresses' balances. -/
theorem get_balance_debit_ne (st : WorldState) (a b : String) (amt : Nat)
    (hne : ¬ b = a) :
    (st.debit a amt).2.get_balance b = st.get_balance b := by
  obtain ⟨l, cs⟩ := st
  simp only [WorldState.debit, WorldState.get_balance, WorldState.get_account]
  induction l with
  | nil =>
    have hab : ¬ a = b := fun hh => hne hh.symm
    by_cases hz : amt = 0 <;> simp [debitAccounts, hz, hab]
  | cons e rest ih =>
    obtain ⟨k, acc⟩ := e
    have hab : ¬ a = b := fun hh => hne hh.symm
    by_cases hk : k = a
    · subst hk
      by_cases hd : amt ≤ acc.balance <;>
        simp [debitAccounts, hd, hab, hne]
    · by_cases hb : k = b
      · subst hb
        simp [debitAccounts, hk, hne]
      · simp [debitAccounts, hk, hb, ih, hne]

/-- `WorldState::transfer` conserves the total supply, provided crediting
the recipient does not overflow. -/
theorem sum_transfer (st : WorldState) (fromA toA : String) (amt : Nat)
    (hno : st.get_balance toA + amt < 2 ^ 64) :
    sumBalances (st.transfer fromA toA amt).2 = sumBalances st := by
  unfold WorldState.transfer
  by_cases hlt : st.get_balance fromA < amt
  · simp [hlt]
  · simp only [if_neg hlt]
    have hle : amt ≤ st.get_balance fromA := by omega
    have hbal : (st.debit fromA amt).2.get_balance toA + amt < 2 ^ 64 := by
      by_cases heq : toA = fromA
      · subst heq
        rw [get_balance_debit_self st toA amt hle]
        omega
      · rw [get_balance_debit_ne st fromA toA amt heq]
        exact hno
    rw [sum_credit _ _ _ hbal, sum_debit_le st fromA amt hle]
    have hfs := get_balance_le_sum st fromA
    omega

/-- C7 (amended): one `Transfer` application in the mining/replay
state-transition loop preserves the sum of balances for a non-system sender
and increases it by exactly `amount` for the system sender, PROVIDED the
recipient's balance plus the amount does not exceed `u64::MAX` (the
unchecked wrapping addition in `credit` breaks the law at that boundary,
see the counterexample). -/
theorem transfer_sum_amended (st : WorldState) (tx : Transaction)
    (htype : tx.tx_type = TransactionType.transfer)
    (hno : st.get_balance tx.recipient + tx.amount < 2 ^ 64) :
    (tx.sender = "system" →
      sumBalances (applyTx st tx) = sumBalances st + tx.amount) ∧
    (tx.sender ≠ "system" →
      sumBalances (applyTx st tx) = sumBalances st) := by
  constructor
  · intro hs
    simp [applyTx, htype, hs, sum_credit st tx.recipient tx.amount hno]
  · intro hs
    simp [applyTx, htype, hs]
    exact sum_transfer st tx.sender tx.recipient tx.amount hno

/-- Counterexample to C7 as stated: crediting a saturated account wraps, so
the system-sender transfer does not increase the sum by `amount`. -/
theorem transfer_sum_counterexample :
    sysTxW.tx_type = TransactionType.transfer ∧ sysTxW.sender = "system" ∧
    sumBalances (applyTx stOverflowW sysTxW) ≠
      sumBalances stOverflowW + sysTxW.amount := by
  refine ⟨rfl, rfl, by decide⟩

/-- Witness for the amended C7 at a concrete input. -/
theorem transfer_sum_amended_witness :
    sumBalances (applyTx WorldState.new sysTxW) =
      sumBalances WorldState.new + sysTxW.amount :=
  (transfer_sum_amended WorldState.new sysTxW rfl (by decide)).1 rfl

end Blockchain
